import Mathlib

/-!
# Verification of the NCAAMBBModel temporal-integrity pipeline

Shallow embedding, over `ℚ` and `ℤ`, of the core computations of the
repository: the rolling in-season statistics engine
(`ml/features_inseason_stats.py`), the walk-forward backtest
(`ml/walkforward_backtest.py`), the time-aware rating attachment
(`data-collection/ratings_loader.py`), the odds-band wagering policy
(`ml/experiments_ncaabb/backtest_odds_aware_policy.py`), Kelly stake
sizing and the production prediction path (`ml/ncaabb_variant_b_model.py`),
and the long-underdog calibration gate
(`ml/experiments_ncaabb/underdog_longdogs_calibration.py`).

Dates are embedded as integers (any order-preserving encoding of calendar
dates; concrete dates use the `yyyymmdd` number, day arithmetic in the
walk-forward loop uses day counts). Missing values (pandas `NaN` / `None`)
are embedded as `Option`. Floating-point numbers are embedded as rationals.
-/

set_option maxRecDepth 16000

namespace FeaturesInseasonStats

/-- One game seen from the perspective of one team: the `team_games` row of
`compute_team_rolling_stats` (`points_for`, `points_against`, `won`,
optional box-score stats for the possession estimate). -/
structure Obs where
  points_for : ℚ
  points_against : ℚ
  won : ℚ
  fga : Option ℚ
  fta : Option ℚ
  oreb : ℚ
  tov : ℚ
deriving DecidableEq, Repr

/-- Source `estimate_possessions`: `FGA + 0.44*FTA - OREB + TOV` when `fga` and
`fta` are both available, else the fallback constant `70.0`.  The
`possessions = 70.0` branch of `compute_team_rolling_stats` (taken when the
`fga` column is absent) is the `none, none` case here. -/
def estimate_possessions (o : Obs) : ℚ :=
  match o.fga, o.fta with
  | some fga, some fta => fga + 11 / 25 * fta - o.oreb + o.tov
  | _, _ => 70

/-- Per-game offensive rating: `points_for / possessions * 100`. -/
def oRtgMetric (o : Obs) : ℚ := o.points_for / estimate_possessions o * 100

/-- Per-game defensive rating: `points_against / possessions * 100`. -/
def dRtgMetric (o : Obs) : ℚ := o.points_against / estimate_possessions o * 100

/-- Per-game pace: the possession estimate itself. -/
def paceMetric (o : Obs) : ℚ := estimate_possessions o

/-- Per-game margin of victory: `points_for - points_against`. -/
def movMetric (o : Obs) : ℚ := o.points_for - o.points_against

/-- Per-game win flag, used for the rolling win percentage. -/
def winMetric (o : Obs) : ℚ := o.won

/-- Arithmetic mean of a list of rationals (`Series.mean` over the non-null
entries of a rolling window). -/
def listMean (l : List ℚ) : ℚ := l.sum / l.length

/-- pandas `Series.shift(1)`: prepend a missing value and drop the last
entry, keeping the length. -/
def shift1 (xs : List (Option ℚ)) : List (Option ℚ) :=
  (none :: xs).take xs.length

/-- pandas `Series.rolling(window=w, min_periods=1).mean()`: at position
`i` the window holds positions `[max(0, i+1-w), i]`; the mean is taken over
the non-null entries, and the result is null when no non-null entry is in
the window. -/
def rollingMeanMin1 (s : List (Option ℚ)) (w : ℕ) : List (Option ℚ) :=
  (List.range s.length).map (fun i =>
    let vals := ((s.take (i + 1)).drop (i + 1 - w)).filterMap id
    if vals.length = 0 then none else some (listMean vals))

/-- The `shift(1).rolling(window=w, min_periods=1).mean()` combinator used
for every rolling column of `compute_team_rolling_stats`. -/
def rollingShiftMean (xs : List ℚ) (w : ℕ) : List (Option ℚ) :=
  rollingMeanMin1 (shift1 (xs.map some)) w

/-- Source `compute_team_rolling_stats`, for one team (rows already sorted by
date, as the function itself ensures), one per-game metric `f` (any of
`oRtgMetric`, `dRtgMetric`, `paceMetric`, `movMetric`, `winMetric`) and one
lookback window `w`: the rolling column of that metric for that window. -/
def compute_team_rolling_stats (f : Obs → ℚ) (team_games : List Obs) (w : ℕ) :
    List (Option ℚ) :=
  rollingShiftMean (team_games.map f) w

/-- Concrete three-game team history used to instantiate the rolling-stat
theorems: margins of victory are `5`, `-2`, `100`. -/
def demoGames : List Obs :=
  [⟨10, 5, 1, none, none, 0, 0⟩, ⟨6, 8, 0, none, none, 0, 0⟩,
   ⟨100, 0, 1, none, none, 0, 0⟩]

end FeaturesInseasonStats

namespace WalkforwardBacktest

/-- One row of the joined dataset fed to `walkforward_backtest`: only the
`date` column and an identity are relevant to the temporal claims. -/
structure Row where
  date : ℤ
  id : ℕ
deriving DecidableEq, Repr

/-- Source `split_train_test_by_date`: train is every row dated strictly before
the test start; test is every row with
`test_start_date <= date <= test_end_date` (both comparisons inclusive, as
in the source: the date column is compared with `>=` to the start and `<=` to the end). -/
def split_train_test_by_date (df : List Row) (test_start_date test_end_date : ℤ) :
    List Row × List Row :=
  (df.filter (fun r => decide (r.date < test_start_date)),
   df.filter (fun r => decide (test_start_date ≤ r.date ∧ r.date ≤ test_end_date)))

/-- Minimum of the date column (the source only calls it on nonempty
data; the empty default is irrelevant there). -/
def datesMin : List Row → ℤ
  | [] => 0
  | r :: rs => rs.foldl (fun a x => min a x.date) r.date

/-- Maximum of the date column. -/
def datesMax : List Row → ℤ
  | [] => 0
  | r :: rs => rs.foldl (fun a x => max a x.date) r.date

/-- One recorded walk-forward period: its test window boundaries and the
train/test sets used for it.  Only periods that were actually trained and
tested are recorded (mirroring `all_results` in the source). -/
structure Period where
  test_start : ℤ
  test_end : ℤ
  train : List Row
  test : List Row
deriving DecidableEq, Repr

/-- The `while current_test_start < max_date` loop of
`walkforward_backtest`: each iteration sets
`current_test_end = min(current_test_start + test_window_days, max_date)`,
splits, breaks on an empty test set, skips (without recording) a period
whose training set has fewer than 50 rows, otherwise records the period,
and always advances `current_test_start = current_test_end`.  `fuel` bounds
the number of iterations (the source loop terminates because the start
date strictly increases). -/
def wfLoop (df : List Row) (max_date test_window_days : ℤ) :
    ℕ → ℤ → List Period
  | 0, _ => []
  | fuel + 1, current_test_start =>
    if current_test_start < max_date then
      let current_test_end := min (current_test_start + test_window_days) max_date
      let tt := split_train_test_by_date df current_test_start current_test_end
      if tt.2.length = 0 then []
      else if tt.1.length < 50 then
        wfLoop df max_date test_window_days fuel current_test_end
      else
        ⟨current_test_start, current_test_end, tt.1, tt.2⟩ ::
          wfLoop df max_date test_window_days fuel current_test_end
    else []

/-- Source `walkforward_backtest`: the initial test start is
`min_date + 30 * initial_train_months` days, then the loop above. -/
def walkforward_backtest (df : List Row) (initial_train_months test_window_days : ℤ)
    (fuel : ℕ) : List Period :=
  wfLoop df (datesMax df) test_window_days fuel
    (datesMin df + 30 * initial_train_months)

/-- Concrete dataset for the walk-forward theorems: 50 rows on day 0
(enough training data), then single games on days 60, 90 and 120.  Day 90
is exactly the boundary between the first test window `[60, 90]` and the
second `[90, 120]`. -/
def wfDemoDf : List Row :=
  (List.range 50).map (fun k => ⟨0, k⟩) ++ [⟨60, 50⟩, ⟨90, 51⟩, ⟨120, 52⟩]

/-- The recorded periods of the demo run (2 initial training months,
30-day test windows). -/
def wfDemoPeriods : List Period := walkforward_backtest wfDemoDf 2 30 5

/-- First recorded period of the demo run. -/
def wfDemoP1 : Period := wfDemoPeriods.headD ⟨0, 0, [], []⟩

/-- Second recorded period of the demo run. -/
def wfDemoP2 : Period := wfDemoPeriods.getD 1 ⟨0, 0, [], []⟩

end WalkforwardBacktest

namespace RatingsLoader

/-- One row of a season-end (or preseason) KenPom ratings file: one rating
per team, no `rating_date` column. -/
structure PlainRating where
  team : ℕ
  adjEM : ℚ
deriving DecidableEq, Repr

/-- One row of a dated ratings table: `(team, rating_date, metrics)`. -/
structure DatedRating where
  team : ℕ
  rating_date : ℤ
  adjEM : ℚ
deriving DecidableEq, Repr

/-- The three loading modes of `load_season_ratings`. -/
inductive RatingsMode
  | season_end
  | preseason_only
  | dated_snapshots
deriving DecidableEq, Repr

/-- Lookup table `season_start_dates` with its November-6-of-the-prior-year
fallback (dates encoded as `yyyymmdd`). -/
def season_start_date (season : ℤ) : ℤ :=
  if season = 2022 then 20211109
  else if season = 2023 then 20221107
  else if season = 2024 then 20231106
  else if season = 2025 then 20241104
  else (season - 1) * 10000 + 1106

/-- Lookup table `preseason_dates` with its November-1-of-the-prior-year
fallback. -/
def preseason_date (season : ℤ) : ℤ :=
  if season = 2022 then 20211101
  else if season = 2023 then 20221101
  else if season = 2024 then 20231101
  else if season = 2025 then 20241101
  else (season - 1) * 10000 + 1101

/-- Source `load_season_ratings`: returns the dated rating table together with
the flag recording whether the "only 1 unique rating_date" diagnostic
warning was printed.  In `dated_snapshots` mode the dates of the file itself are
kept and the warning fires exactly when the file has one distinct
`rating_date`; in `season_end` (resp. `preseason_only`) mode every team
gets the season-start (resp. preseason) date and no such diagnostic
exists on that code path. -/
def load_season_ratings (mode : RatingsMode) (season : ℤ)
    (dated_file : List DatedRating) (plain_file : List PlainRating) :
    List DatedRating × Bool :=
  match mode with
  | .dated_snapshots =>
    (dated_file, decide (((dated_file.map (·.rating_date)).dedup).length = 1))
  | .preseason_only =>
    (plain_file.map (fun r => ⟨r.team, preseason_date season, r.adjEM⟩), false)
  | .season_end =>
    (plain_file.map (fun r => ⟨r.team, season_start_date season, r.adjEM⟩), false)

/-- One game row as seen by `attach_team_ratings`. -/
structure GameRec where
  date : ℤ
  home_team : ℕ
  away_team : ℕ
deriving DecidableEq, Repr

/-- Sorting `available_ratings` by `rating_date` descending and taking the
first row:
an element of maximal `rating_date`, or null on the empty list. -/
def latest_rating : List DatedRating → Option DatedRating
  | [] => none
  | r :: rs =>
    match latest_rating rs with
    | none => some r
    | some s => if r.rating_date < s.rating_date then some s else some r

/-- The two filters of `attach_team_ratings`: the snapshots of this team,
then
only those with `rating_date <= game_date`. -/
def eligible_ratings (ratings : List DatedRating) (team : ℕ) (game_date : ℤ) :
    List DatedRating :=
  (ratings.filter (fun r => decide (r.team = team))).filter
    (fun r => decide (r.rating_date ≤ game_date))

/-- Source `attach_team_ratings` for one side (`team_of` selects the home or away
team column): one output entry per input game, holding the matched rating
or null; null rating columns keep the game in the output (the source
appends a `None`-valued dict and continues). -/
def attach_team_ratings (games : List GameRec) (ratings : List DatedRating)
    (team_of : GameRec → ℕ) : List (GameRec × Option DatedRating) :=
  games.map (fun g => (g, latest_rating (eligible_ratings ratings (team_of g) g.date)))

/-- Scenario-D game: played 2024-03-01. -/
def demoGame : GameRec := ⟨20240301, 0, 1⟩

/-- Ratings table with two dated snapshots for team `0` and one for
team `1`. -/
def demoRatings : List DatedRating :=
  [⟨0, 20231106, 10⟩, ⟨0, 20240201, 12⟩, ⟨1, 20231106, -3⟩]

end RatingsLoader

namespace OddsAwarePolicy

/-- Source `decide_min_edge_for_odds`: the odds-band table.  `none` is the `SKIP`
decision, `some req` the minimum edge required in that band. -/
def decide_min_edge_for_odds (american_odds : ℚ) (is_favorite : Bool) : Option ℚ :=
  if is_favorite then some (15 / 100)
  else if 100 ≤ american_odds ∧ american_odds < 120 then some (15 / 100)
  else if 120 ≤ american_odds ∧ american_odds < 140 then some (15 / 100)
  else if 140 ≤ american_odds ∧ american_odds < 160 then none
  else if 160 ≤ american_odds ∧ american_odds < 180 then some (13 / 100)
  else if 180 ≤ american_odds ∧ american_odds < 200 then none
  else if 200 ≤ american_odds ∧ american_odds < 250 then some 0
  else if 250 ≤ american_odds ∧ american_odds < 400 then none
  else if 400 ≤ american_odds then none
  else some (15 / 100)

/-- One bet opportunity, as produced by `load_edges_data`. -/
structure Bet where
  american_odds : ℚ
  edge : ℚ
  is_favorite : Bool
deriving DecidableEq, Repr

/-- Source `load_edges_data` sets `is_favorite = american_odds < 0`. -/
def mkBet (american_odds edge : ℚ) : Bet :=
  ⟨american_odds, edge, decide (american_odds < 0)⟩

/-- The per-row decision of `apply_odds_aware_policy`: +400-and-up longdogs
are diverted before the band table is consulted; a `SKIP` band rejects; a
banded bet is kept iff `edge >= required_edge`. -/
def bet_accepted (b : Bet) : Bool :=
  if 400 ≤ b.american_odds then false
  else
    match decide_min_edge_for_odds b.american_odds b.is_favorite with
    | none => false
    | some required_edge => decide (required_edge ≤ b.edge)

/-- Source `apply_odds_aware_policy`: the qualified bets. -/
def apply_odds_aware_policy (df : List Bet) : List Bet :=
  df.filter bet_accepted

end OddsAwarePolicy

namespace VariantBModel

/-- Source `calculate_kelly_stake`: American-to-decimal conversion, full Kelly
`edge / (decimal_odds - 1)`, fractional multiplier, cap at `max_fraction`,
floor at `0`; returns `(full_kelly, applied_kelly)`. -/
def calculate_kelly_stake (edge odds_american kelly_fraction max_fraction : ℚ) :
    ℚ × ℚ :=
  let decimal_odds :=
    if odds_american < 0 then 1 + 100 / |odds_american|
    else 1 + odds_american / 100
  let full_kelly := edge / (decimal_odds - 1)
  let applied_kelly := full_kelly * kelly_fraction
  let applied_capped := min applied_kelly max_fraction
  let applied_floored := max applied_capped 0
  (full_kelly, applied_floored)

/-- numpy/pandas `.round(0)`: round half to even, as an integer. -/
def roundHalfEven (x : ℚ) : ℤ :=
  if x - ⌊x⌋ < 1 / 2 then ⌊x⌋
  else if (1 : ℚ) / 2 < x - ⌊x⌋ then ⌊x⌋ + 1
  else if 2 ∣ ⌊x⌋ then ⌊x⌋ else ⌊x⌋ + 1

/-- The per-bet stake computed by `add_kelly_stakes`:
`bet_size_dollars = round(kelly_applied * bankroll)` in whole dollars. -/
def bet_size_dollars (edge odds_american kelly_fraction max_fraction bankroll : ℚ) :
    ℤ :=
  roundHalfEven
    ((calculate_kelly_stake edge odds_american kelly_fraction max_fraction).2 *
      bankroll)

/-- One recommended bet row entering `add_kelly_stakes`. -/
structure KellyBet where
  max_edge : ℚ
  bet_odds : ℚ
deriving DecidableEq, Repr

/-- Source `add_kelly_stakes`: per row, the full Kelly fraction, the applied
fraction, and the rounded dollar stake. -/
def add_kelly_stakes (bets : List KellyBet) (bankroll kelly_fraction max_fraction : ℚ) :
    List (KellyBet × ℚ × ℚ × ℤ) :=
  bets.map (fun b =>
    let k := calculate_kelly_stake b.max_edge b.bet_odds kelly_fraction max_fraction
    (b, k.1, k.2, bet_size_dollars b.max_edge b.bet_odds kelly_fraction max_fraction bankroll))

/-- One game row entering `predict_variant_b`: the feature columns (each
possibly missing) and the market columns used for edges. -/
structure GameRow where
  features : List (Option ℚ)
  home_ml : ℚ
  away_ml : ℚ
  home_implied_prob : ℚ
  away_implied_prob : ℚ
deriving DecidableEq, Repr

/-- Source `df[feature_cols].fillna(0)`: every missing feature value becomes the
number `0`. -/
def fillna0 (features : List (Option ℚ)) : List ℚ :=
  features.map (fun v => v.getD 0)

/-- One prediction row produced by `predict_variant_b`. -/
structure Pred where
  row : GameRow
  model_prob_home : ℚ
  model_prob_away : ℚ
  edge_home : ℚ
  edge_away : ℚ
  max_edge : ℚ
deriving DecidableEq, Repr

/-- Source `predict_variant_b`: fill missing features with `0`, score every game
with the (pluggable) model, derive both edges and the best edge, and
return (all scored games, the rows passing the `min_edge` filter). -/
def predict_variant_b (model : List ℚ → ℚ) (games : List GameRow) (min_edge : ℚ) :
    List Pred × List Pred :=
  let preds := games.map (fun g =>
    let p := model (fillna0 g.features)
    let edge_home := p - g.home_implied_prob
    let edge_away := (1 - p) - g.away_implied_prob
    ⟨g, p, 1 - p, edge_home, edge_away, max edge_home edge_away⟩)
  (preds, preds.filter (fun pr => decide (min_edge ≤ pr.max_edge)))

/-- Concrete game row with a missing rolling feature (no history) used to
instantiate the prediction-path theorem. -/
def demoRow : GameRow := ⟨[some (1 / 2), none], 150, -170, 2 / 5, 17 / 27⟩

end VariantBModel

namespace LongdogsCalibration

/-- One row of the longdog experiment CSV. -/
structure LongdogRow where
  date : ℤ
  model_prob : ℚ
  outcome : Option ℤ
  american_odds : ℚ
deriving DecidableEq, Repr

/-- Source `load_longdogs_data`: keep rows with odds in `[min_odds, max_odds]`,
drop rows without outcomes (future games), sort chronologically. -/
def load_longdogs_data (rows : List LongdogRow) (min_odds max_odds : ℚ) :
    List LongdogRow :=
  (((rows.filter
      (fun r => decide (min_odds ≤ r.american_odds ∧ r.american_odds ≤ max_odds))).filter
      (fun r => !r.outcome.isNone)).mergeSort
    (fun a b => decide (a.date ≤ b.date)))

/-- Source `split_by_date`: chronological train/test split at index
`int(len * (1 - test_ratio))`. -/
def split_by_date (df : List LongdogRow) (test_frac : ℚ) :
    List LongdogRow × List LongdogRow :=
  let split_idx := (⌊(df.length : ℚ) * (1 - test_frac)⌋).toNat
  (df.take split_idx, df.drop split_idx)

/-- The control flow of `main` around calibration: load, then refuse
(returning with no calibrator fitted, modelled as `none`) when fewer than
50 samples are available; otherwise split chronologically and fit both
calibrators on the train part (modelled as returning the split the fits
receive). -/
def calibration_main (rows : List LongdogRow) (min_odds max_odds test_frac : ℚ) :
    Option (List LongdogRow × List LongdogRow) :=
  let df := load_longdogs_data rows min_odds max_odds
  if df.length < 50 then none
  else some (split_by_date df test_frac)

end LongdogsCalibration

namespace FeaturesInseasonStats

lemma filterMap_id_map_some (l : List ℚ) : (l.map some).filterMap id = l := by
  simp

lemma shift1_map_some (xs : List ℚ) (h : xs ≠ []) :
    shift1 (xs.map some) = none :: (xs.take (xs.length - 1)).map some := by
  unfold shift1
  obtain ⟨n, hn⟩ : ∃ n, xs.length = n + 1 :=
    ⟨xs.length - 1, (Nat.succ_pred_eq_of_pos (List.length_pos.mpr h)).symm⟩
  rw [List.length_map, hn, List.take_succ_cons, ← List.map_take]
  simp

lemma length_shift1 (xs : List (Option ℚ)) : (shift1 xs).length = xs.length := by
  unfold shift1
  simp

lemma length_rollingMeanMin1 (s : List (Option ℚ)) (w : ℕ) :
    (rollingMeanMin1 s w).length = s.length := by
  unfold rollingMeanMin1
  simp

/-- Closed form of the rolling column at a valid position `i`: null at
`i = 0`, otherwise the mean over exactly the slice `[i - w, i)` of the
metric sequence (`i - w` is truncated subtraction, i.e. `max (i-w) 0`). -/
lemma rollingShiftMean_getElem (xs : List ℚ) (w i : ℕ) (hw : 0 < w)
    (hi : i < xs.length) :
    (rollingShiftMean xs w)[i]? =
      some (if i = 0 then none
            else some (listMean ((xs.take i).drop (i - w)))) := by
  have hne : xs ≠ [] := List.ne_nil_of_length_pos (Nat.pos_of_ne_zero (by omega))
  have hs : shift1 (xs.map some) = none :: (xs.take (xs.length - 1)).map some :=
    shift1_map_some xs hne
  have hslen : (shift1 (xs.map some)).length = xs.length := by
    rw [length_shift1, List.length_map]
  unfold rollingShiftMean rollingMeanMin1
  rw [hslen, List.getElem?_map, List.getElem?_range hi, Option.map_some']
  congr 1
  have htake : (shift1 (xs.map some)).take (i + 1) =
      none :: (xs.take i).map some := by
    rw [hs, List.take_succ_cons, ← List.map_take, List.take_take]
    have hmin : min i (xs.length - 1) = i := by omega
    rw [hmin]
  have hvals : (((shift1 (xs.map some)).take (i + 1)).drop (i + 1 - w)).filterMap id
      = (xs.take i).drop (i - w) := by
    rw [htake]
    rcases Nat.lt_or_ge i w with hcase | hcase
    · have h1 : i + 1 - w = 0 := by omega
      have h2 : i - w = 0 := by omega
      rw [h1, h2, List.drop_zero, List.drop_zero]
      show ((xs.take i).map some).filterMap id = xs.take i
      exact filterMap_id_map_some _
    · have h1 : i + 1 - w = (i - w) + 1 := by omega
      rw [h1, List.drop_succ_cons, ← List.map_drop]
      exact filterMap_id_map_some _
  rw [hvals]
  have hlen : ((xs.take i).drop (i - w)).length = i - (i - w) := by
    rw [List.length_drop, List.length_take]
    omega
  rcases Nat.eq_zero_or_pos i with hz | hpos
  · subst hz
    simp
  · have hne2 : ((xs.take i).drop (i - w)).length ≠ 0 := by
      rw [hlen]
      omega
    rw [if_neg hne2, if_neg (show ¬ i = 0 by omega)]

/-- C1: at every position `i > 0` of the date-sorted game list of a team, the
window-`w` rolling feature equals the mean of the per-game metric over
exactly the observations at indices `[max(0, i-w), i)` (the current game
excluded); consequently the value at `i` is unchanged under any mutation
of observations at indices `>= i`, and an entity with exactly 2 prior
observations queried for a window of 5 gets the mean over those 2
observations. -/
theorem rolling_feature_window (f : Obs → ℚ) (team_games : List Obs) (w i : ℕ)
    (hw : 0 < w) (hi : i < team_games.length) (hpos : 0 < i) :
    (compute_team_rolling_stats f team_games w)[i]? =
      some (some (listMean (((team_games.map f).take i).drop (i - w)))) ∧
    ∀ team_games2 : List Obs, team_games2.length = team_games.length →
      team_games.take i = team_games2.take i →
      (compute_team_rolling_stats f team_games w)[i]? =
        (compute_team_rolling_stats f team_games2 w)[i]? := by
  have main := rollingShiftMean_getElem (team_games.map f) w i hw
    (by rw [List.length_map]; exact hi)
  rw [if_neg (by omega : ¬ i = 0)] at main
  constructor
  · exact main
  · intro tg2 hlen htake
    have main2 := rollingShiftMean_getElem (tg2.map f) w i hw
      (by rw [List.length_map, hlen]; exact hi)
    rw [if_neg (by omega : ¬ i = 0)] at main2
    have hslice : (team_games.map f).take i = (tg2.map f).take i := by
      rw [← List.map_take, ← List.map_take, htake]
    show (rollingShiftMean (team_games.map f) w)[i]? =
      (rollingShiftMean (tg2.map f) w)[i]?
    rw [main, main2, hslice]

/-- Witness for C1: on the concrete three-game history, the margin-of-
victory feature at position 2 with window 5 is the mean of the first two
margins, `(5 + (-2)) / 2 = 3/2` (Scenario C: 2 prior games, L5 window). -/
theorem rolling_feature_window_witness :
    (compute_team_rolling_stats movMetric demoGames 5)[2]? = some (some (3 / 2)) := by
  rw [(rolling_feature_window movMetric demoGames 5 2 (by decide) (by decide)
    (by decide)).1]
  simp [demoGames, movMetric, listMean]
  norm_num

lemma rollingShiftMean_zero (xs : List ℚ) (w : ℕ) (h : xs ≠ []) :
    (rollingShiftMean xs w)[0]? = some none := by
  have hslen : (shift1 (xs.map some)).length = xs.length := by
    rw [length_shift1, List.length_map]
  have hpos : 0 < xs.length := List.length_pos.mpr h
  unfold rollingShiftMean rollingMeanMin1
  rw [hslen, List.getElem?_map, List.getElem?_range hpos, Option.map_some']
  congr 1
  rw [shift1_map_some xs h, List.take_succ_cons, List.take_zero]
  rcases Nat.eq_zero_or_pos w with hw0 | hwpos
  · subst hw0
    simp
  · have h1 : 0 + 1 - w = 0 := by omega
    rw [h1, List.drop_zero]
    simp

/-- C7: at the first observation of a team (position 0) every rolling feature
is the explicit missing sentinel, never the number zero. -/
theorem rolling_first_game_missing_sentinel (f : Obs → ℚ) (team_games : List Obs)
    (w : ℕ) (h : team_games ≠ []) :
    (compute_team_rolling_stats f team_games w)[0]? = some none ∧
    ∀ q : ℚ, (compute_team_rolling_stats f team_games w)[0]? ≠ some (some q) := by
  have hz : (compute_team_rolling_stats f team_games w)[0]? = some none :=
    rollingShiftMean_zero (team_games.map f) w (by
      intro hnil
      exact h (List.map_eq_nil_iff.mp hnil))
  refine ⟨hz, ?_⟩
  intro q hq
  rw [hz] at hq
  exact Option.noConfusion (Option.some.inj hq)

/-- Witness for C7: on the concrete three-game history the first
offensive-rating value is missing, not zero. -/
theorem rolling_first_game_missing_sentinel_witness :
    (compute_team_rolling_stats oRtgMetric demoGames 3)[0]? = some none ∧
    (compute_team_rolling_stats oRtgMetric demoGames 3)[0]? ≠ some (some 0) :=
  ⟨(rolling_first_game_missing_sentinel oRtgMetric demoGames 3 (by decide)).1,
   (rolling_first_game_missing_sentinel oRtgMetric demoGames 3 (by decide)).2 0⟩

end FeaturesInseasonStats

namespace WalkforwardBacktest

lemma wfLoop_mem_spec (df : List Row) (maxd T : ℤ) :
    ∀ (fuel : ℕ) (start : ℤ) (p : Period), p ∈ wfLoop df maxd T fuel start →
      p.train = df.filter (fun r => decide (r.date < p.test_start)) ∧
      p.test = df.filter (fun r =>
        decide (p.test_start ≤ r.date ∧ r.date ≤ p.test_end)) := by
  intro fuel
  induction fuel with
  | zero =>
    intro start p hp
    simp [wfLoop] at hp
  | succ n ih =>
    intro start p hp
    simp only [wfLoop, split_train_test_by_date] at hp
    split_ifs at hp with h1 h2 h3
    · simp at hp
    · exact ih _ p hp
    · rcases List.mem_cons.mp hp with heq | htail
      · subst heq
        exact ⟨rfl, rfl⟩
      · exact ih _ p htail
    · simp at hp

/-- C2: in every recorded walk-forward period, every row of the training
set handed to the fit call of the estimator is dated strictly before the
test start of the period — no row with `date >= P.start` is ever trained on. -/
theorem walkforward_train_strictly_before (df : List Row)
    (initial_train_months test_window_days : ℤ) (fuel : ℕ) (p : Period)
    (hp : p ∈ walkforward_backtest df initial_train_months test_window_days fuel)
    (r : Row) (hr : r ∈ p.train) : r.date < p.test_start := by
  have h := (wfLoop_mem_spec df _ _ fuel _ p hp).1
  rw [h] at hr
  exact of_decide_eq_true (List.mem_filter.mp hr).2

/-- Witness for C2: in the first recorded period of the demo run (test window
starting day 60) the day-0 training row is dated before the test start. -/
theorem walkforward_train_strictly_before_witness :
    wfDemoP1 ∈ wfDemoPeriods ∧ (⟨0, 0⟩ : Row) ∈ wfDemoP1.train ∧
    (⟨0, 0⟩ : Row).date < wfDemoP1.test_start :=
  ⟨by decide, by decide,
   walkforward_train_strictly_before wfDemoDf 2 30 5 wfDemoP1 (by decide)
     ⟨0, 0⟩ (by decide)⟩

/-- Counterexample for C3: the demo run records two consecutive periods,
`[60, 90]` and `[90, 120]`; the game dated exactly 90 (`test_end` of the
first period and `test_start` of the second) is in both test sets, so
the test window is NOT half-open on the right and that event is predicted
in two different test periods. -/
theorem walkforward_boundary_double_prediction :
    wfDemoP1 ∈ wfDemoPeriods ∧ wfDemoP2 ∈ wfDemoPeriods ∧ wfDemoP1 ≠ wfDemoP2 ∧
    wfDemoP1.test_start = 60 ∧ wfDemoP1.test_end = 90 ∧
    wfDemoP2.test_start = 90 ∧ wfDemoP2.test_end = 120 ∧
    (⟨90, 51⟩ : Row) ∈ wfDemoP1.test ∧ (⟨90, 51⟩ : Row) ∈ wfDemoP2.test := by
  decide

/-- C3 (amended): in every recorded walk-forward period the test set
consists exactly of the rows with `period.start <= date <= period.end`
(closed on the right); since each next period starts at the previous
end of the previous one, an event dated exactly at a period boundary is
predicted in
both adjacent periods, while events dated strictly inside a window are
predicted exactly once. -/
theorem walkforward_test_window_inclusive (df : List Row)
    (initial_train_months test_window_days : ℤ) (fuel : ℕ) (p : Period)
    (hp : p ∈ walkforward_backtest df initial_train_months test_window_days fuel) :
    p.test =
      df.filter (fun r => decide (p.test_start ≤ r.date ∧ r.date ≤ p.test_end)) :=
  (wfLoop_mem_spec df _ _ fuel _ p hp).2

/-- Witness for C3 (amended): the test set of the first demo period is
exactly
the rows of the demo dataset dated in the closed interval `[60, 90]`. -/
theorem walkforward_test_window_inclusive_witness :
    wfDemoP1.test =
      wfDemoDf.filter (fun r =>
        decide (wfDemoP1.test_start ≤ r.date ∧ r.date ≤ wfDemoP1.test_end)) :=
  walkforward_test_window_inclusive wfDemoDf 2 30 5 wfDemoP1 (by decide)

end WalkforwardBacktest

namespace RatingsLoader

lemma latest_rating_eq_none (l : List DatedRating) :
    latest_rating l = none ↔ l = [] := by
  cases l with
  | nil => simp [latest_rating]
  | cons r rs =>
    simp only [latest_rating]
    cases h : latest_rating rs with
    | none => simp
    | some s =>
      show (if r.rating_date < s.rating_date then some s else some r) = none ↔
        r :: rs = []
      split_ifs <;> simp

lemma latest_rating_spec (l : List DatedRating) :
    ∀ s : DatedRating, latest_rating l = some s →
      s ∈ l ∧ ∀ r ∈ l, r.rating_date ≤ s.rating_date := by
  induction l with
  | nil =>
    intro s h
    simp [latest_rating] at h
  | cons a rs ih =>
    intro s h
    simp only [latest_rating] at h
    cases hrec : latest_rating rs with
    | none =>
      simp only [hrec] at h
      have hnil : rs = [] := (latest_rating_eq_none rs).mp hrec
      subst hnil
      obtain rfl := Option.some.inj h
      constructor
      · exact List.mem_cons_self _ _
      · intro r hr
        rcases List.mem_cons.mp hr with rfl | hr2
        · exact le_rfl
        · simp at hr2
    | some m =>
      simp only [hrec] at h
      obtain ⟨hm_mem, hm_max⟩ := ih m hrec
      split_ifs at h with hlt
      · obtain rfl := Option.some.inj h
        refine ⟨List.mem_cons_of_mem _ hm_mem, ?_⟩
        intro r hr
        rcases List.mem_cons.mp hr with rfl | hr2
        · exact le_of_lt hlt
        · exact hm_max r hr2
      · obtain rfl := Option.some.inj h
        refine ⟨List.mem_cons_self _ _, ?_⟩
        intro r hr
        rcases List.mem_cons.mp hr with rfl | hr2
        · exact le_rfl
        · exact le_trans (hm_max r hr2) (not_lt.mp hlt)

lemma mem_eligible (ratings : List DatedRating) (t : ℕ) (d : ℤ) (r : DatedRating) :
    r ∈ eligible_ratings ratings t d ↔
      r ∈ ratings ∧ r.team = t ∧ r.rating_date ≤ d := by
  unfold eligible_ratings
  simp only [List.mem_filter, decide_eq_true_eq]
  tauto

/-- C4: for every game in the input, the attached rating is the snapshot of
the entity of that game with the maximum `rating_date` among those with
`rating_date <= event.date`; when no such snapshot exists the attachment is
null (never a fallback to a later snapshot), and the game row is retained
in the output either way. -/
theorem attach_ratings_asof (games : List GameRec) (ratings : List DatedRating)
    (team_of : GameRec → ℕ) (i : ℕ) (g : GameRec) (hg : games[i]? = some g) :
    (attach_team_ratings games ratings team_of).length = games.length ∧
    ∃ att : Option DatedRating,
      (attach_team_ratings games ratings team_of)[i]? = some (g, att) ∧
      (att = none ↔ ¬ ∃ r ∈ ratings, r.team = team_of g ∧ r.rating_date ≤ g.date) ∧
      ∀ s : DatedRating, att = some s →
        s ∈ ratings ∧ s.team = team_of g ∧ s.rating_date ≤ g.date ∧
        ∀ r ∈ ratings, r.team = team_of g → r.rating_date ≤ g.date →
          r.rating_date ≤ s.rating_date := by
  constructor
  · unfold attach_team_ratings
    simp
  · refine ⟨latest_rating (eligible_ratings ratings (team_of g) g.date), ?_, ?_, ?_⟩
    · unfold attach_team_ratings
      rw [List.getElem?_map, hg, Option.map_some']
    · rw [latest_rating_eq_none]
      constructor
      · intro hnil hex
        obtain ⟨r, hr, hteam, hdate⟩ := hex
        have hmem : r ∈ eligible_ratings ratings (team_of g) g.date :=
          (mem_eligible ratings (team_of g) g.date r).mpr ⟨hr, hteam, hdate⟩
        rw [hnil] at hmem
        simp at hmem
      · intro hno
        by_contra hne
        obtain ⟨x, hx⟩ := List.exists_mem_of_ne_nil _ hne
        obtain ⟨h1, h2, h3⟩ := (mem_eligible ratings (team_of g) g.date x).mp hx
        exact hno ⟨x, h1, h2, h3⟩
    · intro s hs
      obtain ⟨hmem, hmax⟩ := latest_rating_spec _ s hs
      obtain ⟨h1, h2, h3⟩ := (mem_eligible ratings (team_of g) g.date s).mp hmem
      refine ⟨h1, h2, h3, ?_⟩
      intro r hr hteam hdate
      exact hmax r ((mem_eligible ratings (team_of g) g.date r).mpr ⟨hr, hteam, hdate⟩)

/-- Witness for C4: attaching the demo ratings to the 2024-03-01 game picks
the snapshot of the home team dated 2024-02-01 (the latest one at or before the
game date), and the game row is retained. -/
theorem attach_ratings_asof_witness :
    (attach_team_ratings [demoGame] demoRatings (fun g => g.home_team)).length =
      ([demoGame] : List GameRec).length ∧
    ∃ att : Option DatedRating,
      (attach_team_ratings [demoGame] demoRatings (fun g => g.home_team))[0]? =
        some (demoGame, att) ∧
      (att = none ↔
        ¬ ∃ r ∈ demoRatings, r.team = (fun g => g.home_team) demoGame ∧
          r.rating_date ≤ demoGame.date) ∧
      ∀ s : DatedRating, att = some s →
        s ∈ demoRatings ∧ s.team = (fun g => g.home_team) demoGame ∧
        s.rating_date ≤ demoGame.date ∧
        ∀ r ∈ demoRatings, r.team = (fun g => g.home_team) demoGame →
          r.rating_date ≤ demoGame.date → r.rating_date ≤ s.rating_date :=
  attach_ratings_asof [demoGame] demoRatings (fun g => g.home_team) 0 demoGame
    (by decide)

/-- Counterexample for C9: load the 2024 season-end snapshot source (one
snapshot per team, dated 2023-11-06 by the loader).  Attaching it to a game
dated 2024-03-01 succeeds, the attached rating set has exactly one distinct
`rating_date`, yet the single-unique-date diagnostic flag is NOT emitted —
that diagnostic exists only on the `dated_snapshots` code path, contrary to
the claim that it fires in every loading mode. -/
theorem ratings_single_date_warning_counterexample :
    (load_season_ratings .season_end 2024 [] [⟨0, 25⟩]).2 = false ∧
    (((load_season_ratings .season_end 2024 [] [⟨0, 25⟩]).1.map
        (·.rating_date)).dedup).length = 1 ∧
    attach_team_ratings [demoGame]
        (load_season_ratings .season_end 2024 [] [⟨0, 25⟩]).1
        (fun g => g.home_team) =
      [(demoGame, some ⟨0, 20231106, 25⟩)] := by
  decide

/-- C9 (amended): the single-unique-date diagnostic is emitted exactly in
`dated_snapshots` mode when the loaded ratings table has one distinct
`rating_date`; the `season_end` and `preseason_only` single-static-snapshot
modes never emit it (they print their own mode banners instead). -/
theorem ratings_single_date_warning_only_dated (season : ℤ)
    (dated_file : List DatedRating) (plain_file : List PlainRating) :
    ((load_season_ratings .dated_snapshots season dated_file plain_file).2 = true ↔
      ((dated_file.map (·.rating_date)).dedup).length = 1) ∧
    (load_season_ratings .season_end season dated_file plain_file).2 = false ∧
    (load_season_ratings .preseason_only season dated_file plain_file).2 = false := by
  refine ⟨?_, rfl, rfl⟩
  simp [load_season_ratings]

end RatingsLoader

namespace OddsAwarePolicy

/-- C5: a candidate wager with odds below the +400 ceiling is accepted iff
its odds band is not SKIP and its edge is at least the required
edge; a wager at +150 is rejected whatever its edge; any wager in
`[+200, +250)` with non-negative edge is accepted; wagers at +400 and up
are diverted before the band table is consulted and never accepted here. -/
theorem odds_policy_accept_iff (b : Bet) (hlt : b.american_odds < 400) :
    (bet_accepted b = true ↔
      ∃ req : ℚ, decide_min_edge_for_odds b.american_odds b.is_favorite = some req ∧
        req ≤ b.edge) ∧
    (∀ e : ℚ, bet_accepted (mkBet 150 e) = false) ∧
    (∀ odds e : ℚ, 200 ≤ odds → odds < 250 → 0 ≤ e →
      bet_accepted (mkBet odds e) = true) ∧
    (∀ b2 : Bet, 400 ≤ b2.american_odds → bet_accepted b2 = false) := by
  refine ⟨?_, ?_, ?_, ?_⟩
  · unfold bet_accepted
    rw [if_neg (not_le.mpr hlt)]
    cases hd : decide_min_edge_for_odds b.american_odds b.is_favorite with
    | none =>
      simp [hd]
    | some req =>
      simp only [hd, decide_eq_true_eq]
      constructor
      · intro h
        exact ⟨req, rfl, h⟩
      · rintro ⟨req2, hr, h2⟩
        obtain rfl := Option.some.inj hr
        exact h2
  · intro e
    norm_num [bet_accepted, mkBet, decide_min_edge_for_odds]
  · intro odds e h200 h250 he
    have h1 : ¬ (400 : ℚ) ≤ odds := by linarith
    have h2 : ¬ odds < 0 := by linarith
    have h3 : ¬ ((100 : ℚ) ≤ odds ∧ odds < 120) := by
      rintro ⟨_, hx⟩
      linarith
    have h4 : ¬ ((120 : ℚ) ≤ odds ∧ odds < 140) := by
      rintro ⟨_, hx⟩
      linarith
    have h5 : ¬ ((140 : ℚ) ≤ odds ∧ odds < 160) := by
      rintro ⟨_, hx⟩
      linarith
    have h6 : ¬ ((160 : ℚ) ≤ odds ∧ odds < 180) := by
      rintro ⟨_, hx⟩
      linarith
    have h7 : ¬ ((180 : ℚ) ≤ odds ∧ odds < 200) := by
      rintro ⟨_, hx⟩
      linarith
    have h8 : (200 : ℚ) ≤ odds ∧ odds < 250 := ⟨h200, h250⟩
    simp [bet_accepted, mkBet, decide_min_edge_for_odds, h1, h2, h3, h4, h5, h6,
      h7, h8, he]
  · intro b2 h4
    unfold bet_accepted
    rw [if_pos h4]

/-- Witness for C5: a +220 wager with edge `1/100` sits below the +400
ceiling and all four policy properties hold at that instantiation
(its band requires edge `0`, so it is accepted). -/
theorem odds_policy_accept_iff_witness :
    (mkBet 220 (1 / 100)).american_odds < 400 ∧
    ((bet_accepted (mkBet 220 (1 / 100)) = true ↔
      ∃ req : ℚ,
        decide_min_edge_for_odds (mkBet 220 (1 / 100)).american_odds
            (mkBet 220 (1 / 100)).is_favorite = some req ∧
          req ≤ (mkBet 220 (1 / 100)).edge) ∧
    (∀ e : ℚ, bet_accepted (mkBet 150 e) = false) ∧
    (∀ odds e : ℚ, 200 ≤ odds → odds < 250 → 0 ≤ e →
      bet_accepted (mkBet odds e) = true) ∧
    (∀ b2 : Bet, 400 ≤ b2.american_odds → bet_accepted b2 = false)) :=
  ⟨by norm_num [mkBet],
   odds_policy_accept_iff (mkBet 220 (1 / 100)) (by norm_num [mkBet])⟩

end OddsAwarePolicy

namespace VariantBModel

lemma roundHalfEven_ge_floor (x : ℚ) : ⌊x⌋ ≤ roundHalfEven x := by
  unfold roundHalfEven
  split_ifs <;> omega

lemma roundHalfEven_le_floor_add_one (x : ℚ) : roundHalfEven x ≤ ⌊x⌋ + 1 := by
  unfold roundHalfEven
  split_ifs <;> omega

lemma roundHalfEven_mono {x y : ℚ} (h : x ≤ y) :
    roundHalfEven x ≤ roundHalfEven y := by
  have hf : ⌊x⌋ ≤ ⌊y⌋ := Int.floor_le_floor h
  rcases lt_or_eq_of_le hf with hlt | heq
  · calc roundHalfEven x ≤ ⌊x⌋ + 1 := roundHalfEven_le_floor_add_one x
      _ ≤ ⌊y⌋ := by omega
      _ ≤ roundHalfEven y := roundHalfEven_ge_floor y
  · unfold roundHalfEven
    rw [← heq]
    split_ifs <;> first | omega | (exfalso; linarith)

lemma roundHalfEven_nonneg {x : ℚ} (h : 0 ≤ x) : 0 ≤ roundHalfEven x := by
  have h1 : (0 : ℤ) ≤ ⌊x⌋ := Int.floor_nonneg.mpr h
  have h2 := roundHalfEven_ge_floor x
  omega

lemma roundHalfEven_le_add_half (x : ℚ) : (roundHalfEven x : ℚ) ≤ x + 1 / 2 := by
  have hfl : (⌊x⌋ : ℚ) ≤ x := Int.floor_le x
  unfold roundHalfEven
  split_ifs with h1 h2 h3
  · linarith
  · push_cast
    linarith
  · linarith
  · push_cast
    linarith

/-- Counterexample for C6: at odds -100 (decimal 2.0), full-Kelly
multiplier 1, cap `1/10` and bankroll 106, a large edge gives an applied
fraction of exactly `1/10` and a pre-rounding stake of `10.6`; rounding to
the nearest dollar yields 11, which EXCEEDS `max_fraction * bankroll =
10.6`, so the stake does not always lie in
`[0, max_bankroll_fraction * bankroll]`. -/
theorem kelly_stake_cap_counterexample :
    bet_size_dollars 1 (-100) 1 (1 / 10) 106 = 11 ∧
    ¬ ((bet_size_dollars 1 (-100) 1 (1 / 10) 106 : ℚ) ≤ 1 / 10 * 106) := by
  have h : bet_size_dollars 1 (-100) 1 (1 / 10) 106 = 11 := by
    norm_num [bet_size_dollars, calculate_kelly_stake, roundHalfEven, min_def, max_def]
  refine ⟨h, ?_⟩
  rw [h]
  norm_num

/-- C6 (amended): with fixed nonzero American odds, nonnegative Kelly
multiplier, cap and bankroll, the rounded dollar stake is monotone
non-decreasing in the edge, is never negative, and never exceeds
`max_fraction * bankroll` by more than half of the smallest currency unit
(the applied fraction itself is exactly clamped to `[0, max_fraction]`;
only the final rounding can push the stake up to half a dollar above the
cap). -/
theorem kelly_stake_monotone_bounded
    (odds_american kelly_fraction max_fraction bankroll e1 e2 : ℚ)
    (hodds : odds_american ≠ 0) (hkf : 0 ≤ kelly_fraction)
    (hmaxf : 0 ≤ max_fraction) (hbank : 0 ≤ bankroll) (he : e1 ≤ e2) :
    bet_size_dollars e1 odds_american kelly_fraction max_fraction bankroll ≤
      bet_size_dollars e2 odds_american kelly_fraction max_fraction bankroll ∧
    0 ≤ bet_size_dollars e1 odds_american kelly_fraction max_fraction bankroll ∧
    (bet_size_dollars e1 odds_american kelly_fraction max_fraction bankroll : ℚ) ≤
      max_fraction * bankroll + 1 / 2 := by
  have hdpos : 0 < (if odds_american < 0 then 1 + 100 / |odds_american|
      else 1 + odds_american / 100) - 1 := by
    split_ifs with hneg
    · have h1 : 0 < |odds_american| := abs_pos.mpr hodds
      have h2 : 0 < 100 / |odds_american| := by positivity
      linarith
    · have hpos : 0 < odds_american := lt_of_le_of_ne (not_lt.mp hneg) (Ne.symm hodds)
      have h2 : 0 < odds_american / 100 := by positivity
      linarith
  obtain ⟨q, hq, hqpos⟩ : ∃ q : ℚ,
      (∀ e : ℚ, (calculate_kelly_stake e odds_american kelly_fraction max_fraction).2 =
        max (min (e / q * kelly_fraction) max_fraction) 0) ∧ 0 < q :=
    ⟨_, fun e => rfl, hdpos⟩
  have hmono : ∀ ea eb : ℚ, ea ≤ eb →
      (calculate_kelly_stake ea odds_american kelly_fraction max_fraction).2 ≤
        (calculate_kelly_stake eb odds_american kelly_fraction max_fraction).2 := by
    intro ea eb hab
    rw [hq ea, hq eb]
    have h1 : ea / q ≤ eb / q := (div_le_div_iff_of_pos_right hqpos).mpr hab
    have h2 : ea / q * kelly_fraction ≤ eb / q * kelly_fraction :=
      mul_le_mul_of_nonneg_right h1 hkf
    exact max_le_max (min_le_min h2 (le_refl max_fraction)) (le_refl 0)
  have hlb : ∀ e : ℚ,
      0 ≤ (calculate_kelly_stake e odds_american kelly_fraction max_fraction).2 := by
    intro e
    rw [hq e]
    exact le_max_right _ _
  have hub : ∀ e : ℚ,
      (calculate_kelly_stake e odds_american kelly_fraction max_fraction).2 ≤
        max_fraction := by
    intro e
    rw [hq e]
    exact max_le (min_le_right _ _) hmaxf
  refine ⟨?_, ?_, ?_⟩
  · exact roundHalfEven_mono
      (mul_le_mul_of_nonneg_right (hmono e1 e2 he) hbank)
  · exact roundHalfEven_nonneg (mul_nonneg (hlb e1) hbank)
  · calc (bet_size_dollars e1 odds_american kelly_fraction max_fraction bankroll : ℚ)
        ≤ (calculate_kelly_stake e1 odds_american kelly_fraction max_fraction).2 *
            bankroll + 1 / 2 := roundHalfEven_le_add_half _
      _ ≤ max_fraction * bankroll + 1 / 2 := by
          have := mul_le_mul_of_nonneg_right (hub e1) hbank
          linarith

/-- Witness for C6 (amended): quarter-Kelly at odds -100, cap `1/10`,
bankroll 1000, edges `1/100 <= 2/100`. -/
theorem kelly_stake_monotone_bounded_witness :
    (bet_size_dollars (1 / 100) (-100) (1 / 4) (1 / 10) 1000 ≤
      bet_size_dollars (2 / 100) (-100) (1 / 4) (1 / 10) 1000) ∧
    0 ≤ bet_size_dollars (1 / 100) (-100) (1 / 4) (1 / 10) 1000 ∧
    (bet_size_dollars (1 / 100) (-100) (1 / 4) (1 / 10) 1000 : ℚ) ≤
      1 / 10 * 1000 + 1 / 2 :=
  kelly_stake_monotone_bounded (-100) (1 / 4) (1 / 10) 1000 (1 / 100) (2 / 100)
    (by norm_num) (by norm_num) (by norm_num) (by norm_num) (by norm_num)

end VariantBModel

namespace VariantBModel

/-- C10: in the production prediction path, every missing feature value is
replaced by the number 0 before the model predicts (present values pass
through unchanged), and every input game — including one with no rolling
history — is assigned model probabilities and edges computed from the
zero-filled feature vector. -/
theorem predict_fillna_zero (model : List ℚ → ℚ) (games : List GameRow)
    (min_edge : ℚ) (g : GameRow) (hg : g ∈ games) :
    List.Forall₂ (fun (ov : Option ℚ) (v : ℚ) =>
        (ov = none → v = 0) ∧ ∀ x : ℚ, ov = some x → v = x)
      g.features (fillna0 g.features) ∧
    ∃ p ∈ (predict_variant_b model games min_edge).1,
      p.row = g ∧
      p.model_prob_home = model (fillna0 g.features) ∧
      p.model_prob_away = 1 - model (fillna0 g.features) ∧
      p.edge_home = model (fillna0 g.features) - g.home_implied_prob ∧
      p.edge_away = (1 - model (fillna0 g.features)) - g.away_implied_prob ∧
      p.max_edge = max p.edge_home p.edge_away := by
  constructor
  · unfold fillna0
    induction g.features with
    | nil => exact List.Forall₂.nil
    | cons a l ihl =>
      refine List.Forall₂.cons ?_ ihl
      constructor
      · intro h
        subst h
        rfl
      · intro x h
        subst h
        rfl
  · refine ⟨⟨g, model (fillna0 g.features), 1 - model (fillna0 g.features),
      model (fillna0 g.features) - g.home_implied_prob,
      (1 - model (fillna0 g.features)) - g.away_implied_prob,
      max (model (fillna0 g.features) - g.home_implied_prob)
        ((1 - model (fillna0 g.features)) - g.away_implied_prob)⟩,
      ?_, rfl, rfl, rfl, rfl, rfl, rfl⟩
    exact List.mem_map_of_mem _ hg

/-- Witness for C10: scoring the single demo game (one present feature,
one missing) with the summing model: the missing coordinate is fed to the
model as `0` and the game receives probabilities and edges. -/
theorem predict_fillna_zero_witness :
    List.Forall₂ (fun (ov : Option ℚ) (v : ℚ) =>
        (ov = none → v = 0) ∧ ∀ x : ℚ, ov = some x → v = x)
      demoRow.features (fillna0 demoRow.features) ∧
    ∃ p ∈ (predict_variant_b (fun xs => xs.sum) [demoRow] (15 / 100)).1,
      p.row = demoRow ∧
      p.model_prob_home = (fillna0 demoRow.features).sum ∧
      p.model_prob_away = 1 - (fillna0 demoRow.features).sum ∧
      p.edge_home = (fillna0 demoRow.features).sum - demoRow.home_implied_prob ∧
      p.edge_away = (1 - (fillna0 demoRow.features).sum) - demoRow.away_implied_prob ∧
      p.max_edge = max p.edge_home p.edge_away :=
  predict_fillna_zero (fun xs => xs.sum) [demoRow] (15 / 100) demoRow
    (List.mem_singleton.mpr rfl)

end VariantBModel

namespace LongdogsCalibration

/-- C8: the calibration run refuses to produce any calibrator — neither
the Platt nor the isotonic fit is reached — exactly when the available
extreme-underdog sample (rows inside the configured odds range with known
outcomes) has fewer than 50 rows; and that sample is exactly the input
rows with `min_odds <= american_odds <= max_odds` and a non-null outcome. -/
theorem calibration_refuses_small_sample (rows : List LongdogRow)
    (min_odds max_odds test_frac : ℚ) :
    (calibration_main rows min_odds max_odds test_frac = none ↔
      (load_longdogs_data rows min_odds max_odds).length < 50) ∧
    ∀ r : LongdogRow, r ∈ load_longdogs_data rows min_odds max_odds ↔
      (r ∈ rows ∧ min_odds ≤ r.american_odds ∧ r.american_odds ≤ max_odds ∧
        r.outcome ≠ none) := by
  constructor
  · show (if (load_longdogs_data rows min_odds max_odds).length < 50 then none
      else some (split_by_date (load_longdogs_data rows min_odds max_odds)
        test_frac)) = none ↔
      (load_longdogs_data rows min_odds max_odds).length < 50
    split_ifs with h
    · simp [h]
    · simp [h]
  · intro r
    unfold load_longdogs_data
    rw [List.mem_mergeSort]
    have hiso : ∀ o : Option ℤ, (!o.isNone) = true ↔ o ≠ none := by
      intro o
      cases o <;> simp
    simp only [List.mem_filter, decide_eq_true_eq, hiso]
    tauto

end LongdogsCalibration
